import Mathlib

/-!
Shallow embedding of wav-marker (src/wav-marker.c), a command-line tool that
rewrites a RIFF/WAVE file with a fresh cue chunk and a LIST/adtl label chunk
built from an Audacity-style label file.

Files are modelled as lists of byte values (naturals below 256).  The C
program's seekable input stream is modelled by an explicit position into the
byte list; fread of n bytes at position p yields the available bytes and, for
the buffers the C initialises to zero, zero for the remainder (where the C
buffer is uninitialised this model also uses zero; no theorem depends on such
bytes and the sites are marked).  ferror can never fire on a pure byte list, so
the C's ferror-triggered aborts are unreachable here; feof corresponds to a
read request that could not be fully served.

The C parses label start times into single-precision floats.  This model keeps
the parsed decimal exactly, as an integer mantissa and a power-of-ten scale;
timeToIndex is correspondingly idealised as the exact product floored.  The one
claim about the numeric value of timeToIndex is settled separately as not
statable in exact arithmetic.
-/

namespace WavMarker

/-- Decimal digit test, byte 48 to 57 (ctype isdigit on the bytes fscanf sees). -/
def isDigitByte (c : Nat) : Bool := 48 ≤ c && c ≤ 57

/-- White-space test matching C isspace: space, tab, LF, VT, FF, CR. -/
def isSpaceByte (c : Nat) : Bool :=
  c == 32 || c == 9 || c == 10 || c == 11 || c == 12 || c == 13

/-- uint32ToLittleEndianBytes from the source: a 32-bit value as four
little-endian bytes (the value is reduced mod 2^32, as storing into the
four bytes does in C). -/
def uint32ToLittleEndianBytes (v : Nat) : List Nat :=
  [v % 256, v / 256 % 256, v / 65536 % 256, v / 16777216 % 256]

/-- littleEndianBytesToUInt32 from the source: four little-endian bytes to a
value; missing bytes read as zero (the C sites that can read short supply a
zero-initialised buffer, see the scanner). -/
def littleEndianBytesToUInt32 (bs : List Nat) : Nat :=
  bs.getD 0 0 + 256 * bs.getD 1 0 + 65536 * bs.getD 2 0 + 16777216 * bs.getD 3 0

/-- littleEndianBytesToUInt16 from the source. -/
def littleEndianBytesToUInt16 (bs : List Nat) : Nat :=
  bs.getD 0 0 + 256 * bs.getD 1 0

/-- Result of fread of n bytes at position pos of the input: the bytes that are
there, and zero for any byte past end of stream (buffer contents beyond what
fread delivered). -/
def readBytesZ (input : List Nat) (pos n : Nat) : List Nat :=
  (List.range n).map (fun j => input.getD (pos + j) 0)

/-- File position after fread of n bytes at pos: fread advances by the bytes
actually delivered, stopping at end of stream. -/
def advance (len pos n : Nat) : Nat := pos + min n (len - pos)

/-- fseek SEEK_CUR by d: a seek to a negative offset fails and leaves the
position unchanged (the source ignores the return value of these seeks);
seeking past end of stream succeeds. -/
def seekCur (pos : Nat) (d : Int) : Nat :=
  if (pos : Int) + d < 0 then pos else ((pos : Int) + d).toNat

/-- ChunkLocation from the source: a byte range of the input file.  size
counts the 4-byte identifier and the 4-byte length field. -/
structure ChunkLocation where
  startOffset : Nat
  size : Nat
deriving DecidableEq

/-- The bytes RIFF. -/
def riffID : List Nat := [82, 73, 70, 70]

/-- The bytes WAVE. -/
def waveID : List Nat := [87, 65, 86, 69]

/-- The bytes of the format chunk identifier, fmt followed by a space. -/
def fmtID : List Nat := [102, 109, 116, 32]

/-- The bytes data. -/
def dataID : List Nat := [100, 97, 116, 97]

/-- The bytes of the cue chunk identifier, cue followed by a space. -/
def cueID : List Nat := [99, 117, 101, 32]

/-- The bytes LIST. -/
def listID : List Nat := [76, 73, 83, 84]

/-- The bytes adtl. -/
def adtlID : List Nat := [97, 100, 116, 108]

/-- The bytes labl. -/
def lablID : List Nat := [108, 97, 98, 108]

/-- State accumulated by the chunk scanner in addLabelsToWaveFile: the 24 raw
bytes of the format chunk once found, the extra-bytes location of the format
chunk, the data chunk location, and the preserved other chunk locations. -/
structure ScanState where
  formatChunk : Option (List Nat)
  formatChunkExtraBytes : ChunkLocation
  dataChunkLocation : ChunkLocation
  otherChunkLocations : List ChunkLocation
deriving DecidableEq

/-- The fatal conditions of the scanning phase of addLabelsToWaveFile.
readError stands for the ferror checks after each fread; on a pure byte
stream it is never produced (theorem scan_eof_is_never_fatal). -/
inductive ScanErr where
  | readError
  | notRiff
  | notWave
  | emptyWave
  | badCompression
  | tooManyOtherChunks
  | missingFormatOrData
deriving DecidableEq

/-- maxOtherChunks from the source. -/
def maxOtherChunks : Nat := 256

/-- Initial scanner state: no format chunk, zero locations. -/
def initScanState : ScanState :=
  { formatChunk := none
    formatChunkExtraBytes := ⟨0, 0⟩
    dataChunkLocation := ⟨0, 0⟩
    otherChunkLocations := [] }

/-- The shared tail of the scanner's catch-all branch: record the chunk whose
identifier was just read (the position is right after the 4 identifier bytes)
as an other chunk, after the capacity check, and skip its payload and pad.
Returns the new position and state, or the fatal capacity error. -/
def scanOtherStep (input : List Nat) (pos : Nat) (st : ScanState) :
    Except ScanErr (Nat × ScanState) :=
  if maxOtherChunks ≤ st.otherChunkLocations.length then
    .error .tooManyOtherChunks
  else
    let len := input.length
    let startOffset := pos - 4
    let chunkDataSizeBytes := readBytesZ input pos 4
    let chunkDataSize := littleEndianBytesToUInt32 chunkDataSizeBytes
    let pos1 := advance len pos 4
    let loc : ChunkLocation := ⟨startOffset, 4 + 4 + chunkDataSize⟩
    let pos2 := seekCur pos1 chunkDataSize
    let pos3 := if chunkDataSize % 2 ≠ 0 then seekCur pos2 1 else pos2
    .ok (pos3, { st with otherChunkLocations := st.otherChunkLocations ++ [loc] })

/-- The chunk-reading loop of addLabelsToWaveFile.  One fuel unit per
iteration; every iteration either returns or moves the position forward by at
least four bytes, so fuel (input length + 1) is never exhausted at the call
site.  Reading end of stream at the 4-byte identifier, or at a LIST chunk's
type field, breaks the loop (the C: fread then if feof break). -/
def scanLoop (input : List Nat) : Nat → Nat → ScanState → Except ScanErr ScanState
  | 0, _, st => .ok st
  | fuel + 1, pos, st =>
    let len := input.length
    if len - pos < 4 then .ok st
    else
      let nextChunkID := readBytesZ input pos 4
      let pos1 := advance len pos 4
      if nextChunkID = fmtID then
        let p0 := seekCur pos1 (-4)
        let fmtBytes := readBytesZ input p0 24
        let pos2 := advance len p0 24
        let compressionCode := littleEndianBytesToUInt16 ((fmtBytes.drop 8).take 2)
        if compressionCode ≠ 1 ∧ compressionCode ≠ 3 then .error .badCompression
        else
          let chunkDataSize := littleEndianBytesToUInt32 ((fmtBytes.drop 4).take 4)
          let extraFormatBytesCount := (chunkDataSize + 4294967296 - 16) % 4294967296
          if 0 < extraFormatBytesCount then
            let extraLoc : ChunkLocation := ⟨pos2, extraFormatBytesCount⟩
            let pos3 := seekCur pos2 extraFormatBytesCount
            let pos4 := if extraFormatBytesCount % 2 ≠ 0 then seekCur pos3 1 else pos3
            scanLoop input fuel pos4
              { st with formatChunk := some fmtBytes, formatChunkExtraBytes := extraLoc }
          else
            scanLoop input fuel pos2 { st with formatChunk := some fmtBytes }
      else if nextChunkID = dataID then
        let startOffset := pos1 - 4
        let sampleDataSizeBytes := readBytesZ input pos1 4
        let sampleDataSize := littleEndianBytesToUInt32 sampleDataSizeBytes
        let pos2 := advance len pos1 4
        let loc : ChunkLocation := ⟨startOffset, 4 + 4 + sampleDataSize⟩
        let pos3 := seekCur pos2 sampleDataSize
        let pos4 := if sampleDataSize % 2 ≠ 0 then seekCur pos3 1 else pos3
        scanLoop input fuel pos4 { st with dataChunkLocation := loc }
      else if nextChunkID = cueID then
        let cueChunkDataSizeBytes := readBytesZ input pos1 4
        let cueChunkDataSize := littleEndianBytesToUInt32 cueChunkDataSizeBytes
        let pos2 := advance len pos1 4
        let pos3 := seekCur pos2 cueChunkDataSize
        let pos4 := if cueChunkDataSize % 2 ≠ 0 then seekCur pos3 1 else pos3
        scanLoop input fuel pos4 st
      else if nextChunkID = listID then
        let chunkDataSizeBytes := readBytesZ input pos1 4
        let chunkDataSize := littleEndianBytesToUInt32 chunkDataSizeBytes
        let pos2 := advance len pos1 4
        if len - pos2 < 4 then .ok st
        else
          let listTypeID := readBytesZ input pos2 4
          let pos3 := advance len pos2 4
          if listTypeID = adtlID then
            let pos4 := seekCur pos3 ((chunkDataSize : Int) - 4)
            let pos5 := if chunkDataSize % 2 ≠ 0 then seekCur pos4 1 else pos4
            scanLoop input fuel pos5 st
          else
            let pos4 := seekCur pos3 (-8)
            match scanOtherStep input pos4 st with
            | .error e => .error e
            | .ok (pos5, st1) => scanLoop input fuel pos5 st1
      else
        match scanOtherStep input pos1 st with
        | .error e => .error e
        | .ok (pos5, st1) => scanLoop input fuel pos5 st1

/-- The scanning phase of addLabelsToWaveFile: header read and checks, then
the chunk loop, then the presence check for the format and data chunks.
The check of remainingFileSize in the C is on the 32-bit value dataSize - 4,
so on an unsigned quantity it rejects exactly dataSize = 4. -/
def scanWaveFile (input : List Nat) : Except ScanErr ScanState :=
  let header := readBytesZ input 0 12
  if header.take 4 ≠ riffID then .error .notRiff
  else if (header.drop 8).take 4 ≠ waveID then .error .notWave
  else
    let remainingFileSize :=
      (littleEndianBytesToUInt32 ((header.drop 4).take 4) + 4294967296 - 4) % 4294967296
    if remainingFileSize = 0 then .error .emptyWave
    else
      match scanLoop input (input.length + 1) (advance input.length 0 12) initScanState with
      | .error e => .error e
      | .ok st =>
        if st.formatChunk = none ∨ st.dataChunkLocation.size = 0 then
          .error .missingFormatOrData
        else .ok st

/-- A C stdio stream for the label file: the unread bytes and the feof flag.
The flag becomes true when a read reaches past the end; ungetc pushes a byte
back and clears it. -/
structure LStream where
  data : List Nat
  eofFlag : Bool
deriving DecidableEq

/-- fgetc: the next byte, or none at end of stream (setting feof). -/
def lgetc : LStream → Option Nat × LStream
  | ⟨[], _⟩ => (none, ⟨[], true⟩)
  | ⟨c :: rest, e⟩ => (some c, ⟨rest, e⟩)

/-- ungetc. -/
def lungetc (c : Nat) (s : LStream) : LStream := ⟨c :: s.data, false⟩

/-- The peek-ahead in readLabelFile after a carriage return: read one byte; if
it is neither end of stream nor a line feed, push it back. -/
def gobbleLineFeed (s : LStream) : LStream :=
  match lgetc s with
  | (none, s1) => s1
  | (some c, s1) => if c ≠ 10 then lungetc c s1 else s1

/-- Value of a string of decimal digit bytes. -/
def digitsToNat (ds : List Nat) : Nat := ds.foldl (fun a c => a * 10 + (c - 48)) 0

/-- A decimal number captured by a %f conversion, kept exactly: integer
mantissa over a power-of-ten scale.  (The C stores a single-precision float;
this model keeps the decimal exactly, see the file comment.) -/
structure DecimalValue where
  mant : Int
  scale : Nat
deriving DecidableEq

/-- Optional exponent part of a %f conversion, strtof style: an e or E
followed by an optional sign and digits; if no digit follows, nothing is
consumed.  (fscanf cannot push back several bytes; the inputs in this
development carry no exponents.) -/
def parseExponent (v : DecimalValue) (l : List Nat) : DecimalValue × List Nat :=
  match l with
  | c :: r =>
    if c = 101 ∨ c = 69 then
      let signAndRest : Bool × List Nat :=
        match r with
        | 43 :: r2 => (false, r2)
        | 45 :: r2 => (true, r2)
        | _ => (false, r)
      let eds := signAndRest.2.takeWhile isDigitByte
      if eds = [] then (v, l)
      else
        let e := digitsToNat eds
        let rest := signAndRest.2.dropWhile isDigitByte
        if signAndRest.1 then (⟨v.mant, v.scale + e⟩, rest)
        else (⟨v.mant * (10 : Int) ^ e, v.scale⟩, rest)
    else (v, l)
  | [] => (v, l)

/-- The number-matching part of a %f conversion: optional sign, digits,
optional point and digits, optional exponent.  Returns none on matching
failure (no digit in the mantissa), consuming nothing.  Infinity and NaN
forms are not modelled; no input in this development uses them. -/
def parseFloat (l : List Nat) : Option (DecimalValue × List Nat) :=
  let signAndRest : Bool × List Nat :=
    match l with
    | 43 :: r => (false, r)
    | 45 :: r => (true, r)
    | _ => (false, l)
  let neg := signAndRest.1
  let l1 := signAndRest.2
  let ip := l1.takeWhile isDigitByte
  let l2 := l1.dropWhile isDigitByte
  match l2 with
  | 46 :: r =>
    let fp := r.takeWhile isDigitByte
    let l3 := r.dropWhile isDigitByte
    if ip = [] ∧ fp = [] then none
    else
      let m : Int := (digitsToNat ip : Int) * (10 : Int) ^ fp.length + (digitsToNat fp : Int)
      let v : DecimalValue := ⟨if neg then -m else m, fp.length⟩
      some (parseExponent v l3)
  | _ =>
    if ip = [] then none
    else
      let v : DecimalValue := ⟨if neg then -(digitsToNat ip : Int) else (digitsToNat ip : Int), 0⟩
      some (parseExponent v l2)

/-- Comparison startTime <= 48660 from readLabelFile, on the exact decimal:
mant / 10^scale <= 48660. -/
def startTimeWithinCap (v : DecimalValue) : Bool :=
  v.mant ≤ 48660 * (10 : Int) ^ v.scale

/-- One execution of the fscanf call in readLabelFile, format
percent-f, suppressed percent-f, suppressed percent-c, percent-bracket
excluding CR and LF, suppressed percent-c.  Returns the two assigned items
(start time and captured label bytes) on a full match, none when the C call
returns a value other than 2, together with the stream as the C leaves it.
White space skipped by a numeric conversion is consumed even when the
conversion then fails; a conversion that stops at end of stream sets feof. -/
def fscanfLabelLine (s : LStream) : Option (DecimalValue × List Nat) × LStream :=
  let d1 := s.data.dropWhile isSpaceByte
  match parseFloat d1 with
  | none => (none, ⟨d1, s.eofFlag || d1.isEmpty⟩)
  | some (startTime, r1) =>
    let f1 := s.eofFlag || r1.isEmpty
    let d2 := r1.dropWhile isSpaceByte
    match parseFloat d2 with
    | none => (none, ⟨d2, f1 || d2.isEmpty⟩)
    | some (_, r2) =>
      let f2 := f1 || r2.isEmpty
      match r2 with
      | [] => (none, ⟨[], true⟩)
      | _ :: r3 =>
        let lbl := r3.takeWhile (fun c => ¬(c = 13 ∨ c = 10))
        let r4 := r3.dropWhile (fun c => ¬(c = 13 ∨ c = 10))
        if lbl = [] then (none, ⟨r4, f2 || r3.isEmpty⟩)
        else
          let f3 := f2 || r4.isEmpty
          match r4 with
          | [] => (some (startTime, lbl), ⟨[], true⟩)
          | _ :: r5 => (some (startTime, lbl), ⟨r5, f3⟩)

/-- One stored label: the sample index, the label bytes as stored by strcpy
(the captured bytes up to the first zero byte), and labelLengths, which the C
sets to strlen of the captured string plus one. -/
structure LabelEntry where
  location : Nat
  label : List Nat
  labelLength : Nat
deriving DecidableEq

instance : Inhabited LabelEntry := ⟨⟨0, [], 0⟩⟩

/-- LabelInfo from the source.  The C stores into fixed arrays of 500 with an
unchecked index; the model accumulates a list, and the capacity claim is
settled against the absence of any check (theorem label_capacity_unchecked). -/
structure LabelInfo where
  entries : List LabelEntry
deriving DecidableEq

/-- timeToIndex from the source, idealised to exact arithmetic: the sample
rate is read from bytes 12 to 15 of the format chunk, the channel count is
read and unused, and the result is the floor of startTime times the rate,
reduced to 32 bits.  (The C multiplies in single precision and converts the
float to uint32; the difference is the subject of the not-statable claim on
sample-index values.) -/
def timeToIndex (timestamp : DecimalValue) (fmtBytes : List Nat) : Nat :=
  let sampleRate := littleEndianBytesToUInt32 ((fmtBytes.drop 12).take 4)
  ((timestamp.mant * sampleRate).fdiv ((10 : Int) ^ timestamp.scale)).toNat % 4294967296

/-- The while loop of readLabelFile.  One fuel unit per iteration; every
iteration consumes at least one byte or raises feof, so fuel (label data
length + 1) is never exhausted at the call site.  The Nat result counts the
stderr diagnostics (malformed line, or start time beyond the cap). -/
def labelFileLoop (fmtBytes : List Nat) : Nat → LStream → LabelInfo → Nat → LabelInfo × Nat
  | fuel, s, li, diags =>
    if s.eofFlag then (li, diags)
    else
      match fuel with
      | 0 => (li, diags)
      | fuel + 1 =>
        let parsed := fscanfLabelLine s
        let s1 := parsed.2
        let next : LabelInfo × Nat :=
          match parsed.1 with
          | none => (li, diags + 1)
          | some (startTime, lbl) =>
            if startTimeWithinCap startTime then
              let stored := lbl.takeWhile (fun c => c ≠ 0)
              (⟨li.entries ++ [⟨timeToIndex startTime fmtBytes, stored, stored.length + 1⟩]⟩,
               diags)
            else (li, diags + 1)
        let got1 := lgetc s1
        let s3 := if got1.1 = some 13 then gobbleLineFeed got1.2 else got1.2
        let got2 := lgetc s3
        let s5 :=
          if got2.2.eofFlag then got2.2
          else
            match got2.1 with
            | some c => if c = 13 then gobbleLineFeed got2.2 else lungetc c got2.2
            | none => got2.2
        labelFileLoop fmtBytes fuel s5 next.1 next.2

/-- readLabelFile from the source: run the line loop over the label file
bytes, starting with a clear feof flag. -/
def readLabelFile (labelData : List Nat) (fmtBytes : List Nat) : LabelInfo × Nat :=
  labelFileLoop fmtBytes (labelData.length + 1) ⟨labelData, false⟩ ⟨[]⟩ 0

/-- The 24 bytes of one CuePoint record as the synthesizer loop fills it:
cuePointID, playOrderPosition, the bytes data, chunkStart zero, blockStart
zero, frameOffset. -/
def cuePointBytes (cuePointID : Nat) (location : Nat) : List Nat :=
  uint32ToLittleEndianBytes cuePointID ++ uint32ToLittleEndianBytes location ++
    dataID ++ uint32ToLittleEndianBytes 0 ++ uint32ToLittleEndianBytes 0 ++
    uint32ToLittleEndianBytes location

/-- The text bytes the synthesizer copies into a labl record: bytes 0 to
labelLength - 1 of the 500-byte zero-initialised label array, which holds the
stored label followed by zeros. -/
def labelTextBytes (en : LabelEntry) : List Nat :=
  (List.range en.labelLength).map (fun j => en.label.getD j 0)

/-- One labl record as the synthesizer loop appends it to the list body:
the bytes labl, the record data size labelLength + 4, the cue id, the text
bytes, and one zero pad byte when labelLength is odd. -/
def lablRecordBytes (cuePointID : Nat) (en : LabelEntry) : List Nat :=
  lablID ++ uint32ToLittleEndianBytes (en.labelLength + 4) ++
    uint32ToLittleEndianBytes cuePointID ++ labelTextBytes en ++
    (if en.labelLength % 2 ≠ 0 then [0] else [])

/-- The cue points for entries starting at loop index i (the C loop assigns
id i + 1 to the entry at index i). -/
def cuePointsAux : Nat → List LabelEntry → List (List Nat)
  | _, [] => []
  | i, en :: rest => cuePointBytes (i + 1) en.location :: cuePointsAux (i + 1) rest

/-- All synthesized cue point records, in entry order. -/
def cuePoints (li : LabelInfo) : List (List Nat) := cuePointsAux 0 li.entries

/-- The labl records for entries starting at loop index i. -/
def lablRecordsAux : Nat → List LabelEntry → List (List Nat)
  | _, [] => []
  | i, en :: rest => lablRecordBytes (i + 1) en :: lablRecordsAux (i + 1) rest

/-- All synthesized labl records, in entry order; their concatenation is the
list body the C builds in labelChunks. -/
def lablRecords (li : LabelInfo) : List (List Nat) := lablRecordsAux 0 li.entries

/-- listChunkSize as computed by the sizing loop in addLabelsToWaveFile:
12 bytes per record plus the label length plus a pad byte when that length is
odd. -/
def listChunkSize (li : LabelInfo) : Nat :=
  (li.entries.map
    (fun en => 12 + en.labelLength + (if en.labelLength % 2 ≠ 0 then 1 else 0))).sum

/-- fileDataSize as accumulated in writeOutputFile: 4 for the form type, the
24-byte format chunk, extra format bytes with pad, the data location with
pad, the other locations with pads, 12 plus the cue records, and 12 plus the
list body.  Computed in Nat; the C accumulates in a uint32 and the 32-bit
reduction happens when the value is stored into the header bytes. -/
def fileDataSize (sr : ScanState) (li : LabelInfo) : Nat :=
  4 + 24 +
    sr.formatChunkExtraBytes.size +
    (if sr.formatChunkExtraBytes.size % 2 ≠ 0 then 1 else 0) +
    sr.dataChunkLocation.size +
    (if sr.dataChunkLocation.size % 2 ≠ 0 then 1 else 0) +
    (sr.otherChunkLocations.map
      (fun c => c.size + (if c.size % 2 ≠ 0 then 1 else 0))).sum +
    4 + 4 + 4 + 24 * li.entries.length +
    4 + 4 + 4 + listChunkSize li

/-- Error schedule for one call of the byte-range copier: whether the k-th
stdio operation of the call (reads and writes alternate, two per loop pass)
reports failure.  On a pure byte list no operation fails by itself; the
schedule stands for external I/O errors so that every failure path of the C
function is in the model. -/
structure CopyEnv where
  readErr : Nat → Bool
  writeErr : Nat → Bool

/-- The schedule with no failures. -/
def noErrEnv : CopyEnv := ⟨fun _ => false, fun _ => false⟩

/-- The trailing block of the copying loop of
writeChunkLocationFromInputFileToOutputFile: when fewer than 1024 bytes
remain, one read and one write of the remainder, if any. -/
def copyTail (env : CopyEnv) (input : List Nat) (origLoc : Nat)
    (remaining pos k : Nat) (out : List Nat) : Int × Nat × List Nat :=
  if 0 < remaining then
    let bytes := readBytesZ input pos remaining
    let pos1 := advance input.length pos remaining
    if env.readErr k then (-1, origLoc, out)
    else if env.writeErr (k + 1) then (-1, origLoc, out)
    else (0, pos1, out ++ bytes)
  else (0, pos, out)

/-- The copying loop of writeChunkLocationFromInputFileToOutputFile: whole
1-KiB blocks while at least 1024 bytes remain, then the trailing block.
Returns the C return code, the input position after the call, and the output
bytes.  On a read or write failure the input position is restored to
origLoc and -1 returned.  A short read leaves the rest of the block buffer
as it was; the C buffer is uninitialised there and the model writes zeros
for those bytes (no theorem depends on them).  Fuel is structural, one unit
per whole block; fuel = remaining suffices at the call site, and running out
of fuel (unreachable from the call site) stops the loop early. -/
def copyLoop (env : CopyEnv) (input : List Nat) (origLoc : Nat) :
    Nat → Nat → Nat → Nat → List Nat → Int × Nat × List Nat
  | 0, remaining, pos, k, out =>
    if 1024 ≤ remaining then (0, pos, out)
    else copyTail env input origLoc remaining pos k out
  | fuel + 1, remaining, pos, k, out =>
    if 1024 ≤ remaining then
      let bytes := readBytesZ input pos 1024
      let pos1 := advance input.length pos 1024
      if env.readErr k then (-1, origLoc, out)
      else if env.writeErr (k + 1) then (-1, origLoc, out)
      else copyLoop env input origLoc fuel (remaining - 1024) pos1 (k + 2) (out ++ bytes)
    else copyTail env input origLoc remaining pos k out

/-- writeChunkLocationFromInputFileToOutputFile from the source: note the
input position, seek to the chunk start (an absolute seek to a Nat offset
cannot fail), copy, and return the C return code with the final input
position and the grown output.  The C restores the noted position only on
the failure paths. -/
def writeChunkLocationFromInputFileToOutputFile (env : CopyEnv) (chunk : ChunkLocation)
    (input : List Nat) (pos : Nat) (out : List Nat) : Int × Nat × List Nat :=
  let inputFileOrigLocation := pos
  copyLoop env input inputFileOrigLocation chunk.size chunk.size chunk.startOffset 0 out

/-- The bytes one successful copier call appends for a chunk location: the
input bytes of the range, with zeros for any part of the range past end of
stream (lemma copyLoop_noErr ties this to the copier). -/
def copiedBytes (input : List Nat) (chunk : ChunkLocation) : List Nat :=
  (List.range chunk.size).map (fun j => input.getD (chunk.startOffset + j) 0)

/-- The format chunk bytes handed to the later phases; after a successful
scan the option is always some. -/
def fmtBytesOf (sr : ScanState) : List Nat :=
  sr.formatChunk.getD (List.replicate 24 0)

/-- writeOutputFile from the source, as the bytes it emits, in order: header
with recomputed size (the scanner verified the stored header starts RIFF and
WAVE, so the emitted header bytes are those literals), the 24 format chunk
bytes, the extra format bytes with pad when present, the data chunk copy
with pad, the cue chunk, the list chunk with pad, then the other chunks with
pads.  The chunk copies are exactly what writeChunkLocationFromInputFileToOutputFile
appends on its success path (lemma writeChunkLocation_noErr); write failures
do not arise on a pure byte list, so the function is total.  The cue writing
loop runs labelInfo.count times; count is a uint32 in the C and the entry
count here, below 2^32 for any input that fits in memory. -/
def writeOutputFile (input : List Nat) (sr : ScanState) (li : LabelInfo) : List Nat :=
  let fds := fileDataSize sr li
  let n := li.entries.length
  let lcs := listChunkSize li
  riffID ++ uint32ToLittleEndianBytes fds ++ waveID ++
    fmtBytesOf sr ++
    (if 0 < sr.formatChunkExtraBytes.size then
      copiedBytes input sr.formatChunkExtraBytes ++
        (if sr.formatChunkExtraBytes.size % 2 ≠ 0 then [0] else [])
     else []) ++
    copiedBytes input sr.dataChunkLocation ++
    (if sr.dataChunkLocation.size % 2 ≠ 0 then [0] else []) ++
    cueID ++ uint32ToLittleEndianBytes (4 + 24 * n) ++ uint32ToLittleEndianBytes n ++
    (cuePoints li).flatten ++
    listID ++ uint32ToLittleEndianBytes (4 + lcs) ++ adtlID ++
    (lablRecords li).flatten ++
    (if lcs % 2 ≠ 0 then [0] else []) ++
    (sr.otherChunkLocations.map
      (fun c => copiedBytes input c ++ (if c.size % 2 ≠ 0 then [0] else []))).flatten

/-- The fatal outcomes of one whole conversion.  File-open and allocation
failures concern the surrounding environment and are outside the byte-level
model. -/
inductive RunErr where
  | scanFailed (e : ScanErr)
  | noCueLocations
deriving DecidableEq

/-- addLabelsToWaveFile from the source, over the input file bytes and the
label file bytes: scan, parse labels, reject an empty label set, write.  A
process exit of zero corresponds exactly to an ok result. -/
def addLabelsToWaveFile (input labelData : List Nat) : Except RunErr (List Nat) :=
  match scanWaveFile input with
  | .error e => .error (.scanFailed e)
  | .ok sr =>
    let li := (readLabelFile labelData (fmtBytesOf sr)).1
    if li.entries.length < 1 then .error .noCueLocations
    else .ok (writeOutputFile input sr li)

/-! Concrete files used by witnesses and counterexamples. -/

/-- A 16-byte-body format chunk: PCM, one channel, 44100 frames per second,
88200 average bytes per second, block align 2, 16 bits per sample. -/
def fmtBytesA : List Nat :=
  [102, 109, 116, 32, 16, 0, 0, 0, 1, 0, 1, 0, 68, 172, 0, 0, 136, 88, 1, 0, 2, 0, 16, 0]

/-- A minimal well-formed wave file: header, the format chunk above, and a
data chunk with a 2-byte payload. -/
def waveFileA : List Nat :=
  riffID ++ [38, 0, 0, 0] ++ waveID ++ fmtBytesA ++ dataID ++ [2, 0, 0, 0] ++ [7, 7]

/-- The label line 1 tab 1 tab a, with no trailing terminator. -/
def labelFileA : List Nat := [49, 9, 49, 9, 97]

/-- The scan result of waveFileA. -/
def srA : ScanState :=
  { formatChunk := some fmtBytesA
    formatChunkExtraBytes := ⟨0, 0⟩
    dataChunkLocation := ⟨36, 10⟩
    otherChunkLocations := [] }

/-- The parsed label set of labelFileA at 44100 frames per second. -/
def liA : LabelInfo := ⟨[⟨44100, [97], 2⟩]⟩

/-- Two label lines, 1 tab 1.1 tab a and 2 tab 2.1 tab b, LF line endings. -/
def lblLF : List Nat :=
  [49, 9, 49, 46, 49, 9, 97, 10, 50, 9, 50, 46, 49, 9, 98, 10]

/-- The same two lines with CRLF line endings. -/
def lblCRLF : List Nat :=
  [49, 9, 49, 46, 49, 9, 97, 13, 10, 50, 9, 50, 46, 49, 9, 98, 13, 10]

/-- The same two lines with CR line endings. -/
def lblCR : List Nat :=
  [49, 9, 49, 46, 49, 9, 97, 13, 50, 9, 50, 46, 49, 9, 98, 13]

/-- waveFileA followed by a JUNK chunk whose length field is cut off after
two bytes: end of stream falls inside the chunk, between its length field's
second and third byte. -/
def waveFileTrunc : List Nat :=
  waveFileA ++ [74, 85, 78, 75] ++ [5, 0]

/-- The scan result of waveFileTrunc: the truncated JUNK chunk is recorded
as an other chunk whose length field read the two available bytes into a
zero-initialised buffer. -/
def srTrunc : ScanState :=
  { formatChunk := some fmtBytesA
    formatChunkExtraBytes := ⟨0, 0⟩
    dataChunkLocation := ⟨36, 10⟩
    otherChunkLocations := [⟨46, 13⟩] }

/-- A label file with 501 copies of the line 1 tab 1 tab a, CRLF endings. -/
def labelFile501 : List Nat :=
  (List.replicate 501 [49, 9, 49, 9, 97, 13, 10]).flatten

/-- The one CRLF-terminated label line of labelFile501. -/
def lblLine : List Nat := [49, 9, 49, 9, 97, 13, 10]

/-- The entry each line of labelFile501 parses to at 44100 frames per
second. -/
def lblLineEntry : LabelEntry := ⟨44100, [97], 2⟩

/-- Soundness of a recorded data chunk location: either never recorded, or it
was recorded where a full 4-byte identifier equal to data was read, with size
8 plus the value of the following length-field read. -/
def dataLocSound (input : List Nat) (loc : ChunkLocation) : Prop :=
  loc.size = 0 ∨
    (loc.startOffset + 4 ≤ input.length ∧
     (input.drop loc.startOffset).take 4 = dataID ∧
     loc.size = 8 + littleEndianBytesToUInt32 (readBytesZ input (loc.startOffset + 4) 4))

/-- The invariant the chunk loop maintains: the other-chunk count never
exceeds the capacity, the recorded data location is sound, and the format
chunk bytes are the 24 bytes of one FormatChunk struct. -/
def scanInv (input : List Nat) (st : ScanState) : Prop :=
  st.otherChunkLocations.length ≤ maxOtherChunks ∧
    dataLocSound input st.dataChunkLocation ∧ (fmtBytesOf st).length = 24

/-! Byte-level helper lemmas. -/

theorem littleEndianBytesToUInt32_uint32 (v : Nat) :
    littleEndianBytesToUInt32 (uint32ToLittleEndianBytes v) = v % 4294967296 := by
  simp [littleEndianBytesToUInt32, uint32ToLittleEndianBytes]
  omega

theorem length_readBytesZ (input : List Nat) (pos n : Nat) :
    (readBytesZ input pos n).length = n := by
  simp [readBytesZ]

theorem readBytesZ_eq_slice (input : List Nat) (pos n : Nat)
    (h : pos + n ≤ input.length) :
    readBytesZ input pos n = (input.drop pos).take n := by
  apply List.ext_getElem
  · simp [readBytesZ]; omega
  · intro i h1 h2
    simp only [readBytesZ, List.getElem_map, List.getElem_range]
    rw [List.getElem_take, List.getElem_drop]
    exact List.getD_eq_getElem input 0 (by simp [readBytesZ] at h1; omega)

theorem copiedBytes_eq_readBytesZ (input : List Nat) (c : ChunkLocation) :
    copiedBytes input c = readBytesZ input c.startOffset c.size := rfl

theorem length_copiedBytes (input : List Nat) (c : ChunkLocation) :
    (copiedBytes input c).length = c.size := by
  simp [copiedBytes]

theorem getD_pos_le (input : List Nat) (i : Nat) (h : input.length ≤ i) :
    input.getD i 0 = 0 :=
  List.getD_eq_default input 0 h

theorem readBytesZ_split (input : List Nat) (pos a b : Nat) :
    readBytesZ input pos (a + b)
      = readBytesZ input pos a ++ readBytesZ input (advance input.length pos a) b := by
  apply List.ext_getElem
  · simp [readBytesZ]
  · intro i h1 h2
    rw [length_readBytesZ] at h1
    by_cases hi : i < a
    · rw [List.getElem_append_left (by simp [readBytesZ]; exact hi)]
      simp only [readBytesZ, List.getElem_map, List.getElem_range]
    · rw [List.getElem_append_right (by simp [readBytesZ]; omega)]
      simp only [readBytesZ, List.getElem_map, List.getElem_range, List.length_map,
        List.length_range]
      by_cases hin : pos + a ≤ input.length
      · have ha : advance input.length pos a = pos + a := by unfold advance; omega
        rw [ha]
        congr 1
        omega
      · have hx : input.length ≤ pos + i := by unfold advance at *; omega
        have hy : input.length ≤ advance input.length pos a + (i - a) := by
          unfold advance at *; omega
        rw [getD_pos_le _ _ hx, getD_pos_le _ _ hy]

/-! Lengths of the synthesized pieces and evenness of the list body. -/

theorem length_labelTextBytes (en : LabelEntry) :
    (labelTextBytes en).length = en.labelLength := by
  simp [labelTextBytes]

theorem length_lablRecordBytes (cid : Nat) (en : LabelEntry) :
    (lablRecordBytes cid en).length
      = 12 + en.labelLength + (if en.labelLength % 2 ≠ 0 then 1 else 0) := by
  simp only [lablRecordBytes, List.length_append, length_labelTextBytes]
  split <;> simp [lablID, uint32ToLittleEndianBytes]

theorem length_flatten_lablRecordsAux (es : List LabelEntry) (k : Nat) :
    (lablRecordsAux k es).flatten.length
      = (es.map
          (fun en => 12 + en.labelLength + (if en.labelLength % 2 ≠ 0 then 1 else 0))).sum := by
  induction es generalizing k with
  | nil => simp [lablRecordsAux]
  | cons e rest ih => simp [lablRecordsAux, length_lablRecordBytes, ih]

theorem length_flatten_lablRecords (li : LabelInfo) :
    (lablRecords li).flatten.length = listChunkSize li := by
  rw [lablRecords, length_flatten_lablRecordsAux]
  rfl

theorem length_cuePointBytes (cid loc : Nat) : (cuePointBytes cid loc).length = 24 := rfl

theorem length_flatten_cuePointsAux (es : List LabelEntry) (k : Nat) :
    (cuePointsAux k es).flatten.length = 24 * es.length := by
  induction es generalizing k with
  | nil => simp [cuePointsAux]
  | cons e rest ih =>
    simp [cuePointsAux, ih, length_cuePointBytes]
    ring

theorem length_flatten_cuePoints (li : LabelInfo) :
    (cuePoints li).flatten.length = 24 * li.entries.length := by
  rw [cuePoints, length_flatten_cuePointsAux]

theorem listChunkSize_entries_even (es : List LabelEntry) :
    (es.map
      (fun en => 12 + en.labelLength + (if en.labelLength % 2 ≠ 0 then 1 else 0))).sum % 2
        = 0 := by
  induction es with
  | nil => simp
  | cons e rest ih =>
    simp only [List.map_cons, List.sum_cons]
    split <;> omega

theorem listChunkSize_even (li : LabelInfo) : listChunkSize li % 2 = 0 :=
  listChunkSize_entries_even li.entries

theorem length_flatten_otherCopies (input : List Nat) (cs : List ChunkLocation) :
    ((cs.map
        (fun c => copiedBytes input c ++ (if c.size % 2 ≠ 0 then [0] else []))).flatten).length
      = (cs.map (fun c => c.size + (if c.size % 2 ≠ 0 then 1 else 0))).sum := by
  induction cs with
  | nil => simp
  | cons c rest ih =>
    simp only [List.map_cons, List.flatten_cons, List.length_append, List.sum_cons, ih,
      length_copiedBytes]
    split <;> simp

theorem length_writeOutputFile (input : List Nat) (sr : ScanState) (li : LabelInfo)
    (hfmt : (fmtBytesOf sr).length = 24) :
    (writeOutputFile input sr li).length = fileDataSize sr li + 8 := by
  simp only [writeOutputFile, fileDataSize, List.length_append, hfmt,
    length_flatten_cuePoints, length_flatten_lablRecords, length_flatten_otherCopies,
    length_copiedBytes]
  have hlcs : listChunkSize li % 2 = 0 := listChunkSize_even li
  by_cases h1 : 0 < sr.formatChunkExtraBytes.size <;>
    by_cases h2 : sr.formatChunkExtraBytes.size % 2 ≠ 0 <;>
      by_cases h3 : sr.dataChunkLocation.size % 2 ≠ 0 <;>
        simp [h1, h2, h3, riffID, waveID, cueID, listID, adtlID, uint32ToLittleEndianBytes,
          length_copiedBytes, hlcs] <;> omega

/-! Copier lemmas: failure paths restore the noted position; the no-failure
run appends exactly the bytes of the range. -/

theorem copyTail_error_restores (env : CopyEnv) (input : List Nat) (origLoc : Nat)
    (remaining pos k : Nat) (out : List Nat) (res : Int × Nat × List Nat)
    (heq : copyTail env input origLoc remaining pos k out = res)
    (h : res.1 = -1) : res.2.1 = origLoc := by
  unfold copyTail at heq
  split at heq
  · split at heq
    · subst res; simp
    · split at heq
      · subst res; simp
      · subst res; simp_all
  · subst res; simp_all

theorem copyLoop_error_restores (env : CopyEnv) (input : List Nat) (origLoc : Nat)
    (fuel : Nat) :
    ∀ remaining pos k out res,
      copyLoop env input origLoc fuel remaining pos k out = res →
      res.1 = -1 → res.2.1 = origLoc := by
  induction fuel with
  | zero =>
    intro remaining pos k out res heq h
    rw [copyLoop] at heq
    split at heq
    · subst res; simp_all
    · exact copyTail_error_restores env input origLoc remaining pos k out res heq h
  | succ fuel ih =>
    intro remaining pos k out res heq h
    rw [copyLoop] at heq
    split at heq
    · dsimp only at heq
      split at heq
      · subst res; simp
      · split at heq
        · subst res; simp
        · exact ih _ _ _ _ res heq h
    · exact copyTail_error_restores env input origLoc remaining pos k out res heq h

theorem copyLoop_ok_pos (env : CopyEnv) (input : List Nat) (origLoc : Nat)
    (fuel : Nat) :
    ∀ remaining pos k out res,
      remaining ≤ fuel → pos + remaining ≤ input.length →
      copyLoop env input origLoc fuel remaining pos k out = res →
      res.1 = 0 → res.2.1 = pos + remaining := by
  induction fuel with
  | zero =>
    intro remaining pos k out res hf hb heq h
    rw [copyLoop] at heq
    have hr : remaining = 0 := by omega
    subst hr
    unfold copyTail at heq
    subst res
    simp
  | succ fuel ih =>
    intro remaining pos k out res hf hb heq h
    rw [copyLoop] at heq
    split at heq
    · dsimp only at heq
      split at heq
      · subst res; simp_all
      · split at heq
        · subst res; simp_all
        · have hadv : advance input.length pos 1024 = pos + 1024 := by
            unfold advance; omega
          rw [hadv] at heq
          have := ih (remaining - 1024) (pos + 1024) (k + 2)
            (out ++ readBytesZ input pos 1024) res (by omega) (by omega) heq h
          omega
    · unfold copyTail at heq
      split at heq
      · split at heq
        · subst res; simp_all
        · split at heq
          · subst res; simp_all
          · have hadv : advance input.length pos remaining = pos + remaining := by
              unfold advance; omega
            rw [hadv] at heq
            subst res
            rfl
      · subst res
        simp
        omega


theorem noErrEnv_readErr (k : Nat) : noErrEnv.readErr k = false := rfl

theorem noErrEnv_writeErr (k : Nat) : noErrEnv.writeErr k = false := rfl

theorem copyLoop_noErr (input : List Nat) (origLoc : Nat) (fuel : Nat) :
    ∀ remaining pos k out,
      remaining ≤ fuel →
      copyLoop noErrEnv input origLoc fuel remaining pos k out
        = (0, advance input.length pos remaining, out ++ readBytesZ input pos remaining) := by
  induction fuel with
  | zero =>
    intro remaining pos k out hf
    have hr : remaining = 0 := by omega
    subst hr
    rw [copyLoop]
    simp [copyTail, advance, readBytesZ]
  | succ fuel ih =>
    intro remaining pos k out hf
    rw [copyLoop]
    split
    · dsimp only
      simp only [noErrEnv_readErr, noErrEnv_writeErr, Bool.false_eq_true, if_false]
      rw [ih (remaining - 1024) _ _ _ (by omega)]
      have hbytes : readBytesZ input pos 1024
            ++ readBytesZ input (advance input.length pos 1024) (remaining - 1024)
          = readBytesZ input pos remaining := by
        rw [← readBytesZ_split]
        have h1024 : 1024 + (remaining - 1024) = remaining := by omega
        rw [h1024]
      have hpos : advance input.length (advance input.length pos 1024) (remaining - 1024)
          = advance input.length pos remaining := by
        unfold advance
        omega
      rw [List.append_assoc, hbytes, hpos]
    · unfold copyTail
      simp only [noErrEnv_readErr, noErrEnv_writeErr, Bool.false_eq_true, if_false]
      split
      · rfl
      · have hr : remaining = 0 := by omega
        subst hr
        simp [advance, readBytesZ]

theorem writeChunkLocation_noErr (chunk : ChunkLocation) (input : List Nat)
    (pos : Nat) (out : List Nat) :
    writeChunkLocationFromInputFileToOutputFile noErrEnv chunk input pos out
      = (0, advance input.length chunk.startOffset chunk.size,
         out ++ copiedBytes input chunk) := by
  unfold writeChunkLocationFromInputFileToOutputFile
  rw [copyLoop_noErr input pos chunk.size chunk.size chunk.startOffset 0 out le_rfl]
  rfl

/-! Scanner invariants: the other-chunk cap holds in every reachable state,
the recorded data location is sound, and no end-of-stream condition produces
the read-error abort. -/

theorem scanOtherStep_ok (input : List Nat) (pos : Nat) (st : ScanState)
    (p : Nat × ScanState) (heq : scanOtherStep input pos st = .ok p) :
    p.2.otherChunkLocations.length ≤ maxOtherChunks ∧
    p.2.dataChunkLocation = st.dataChunkLocation ∧
    p.2.formatChunk = st.formatChunk := by
  unfold scanOtherStep at heq
  split at heq
  · simp at heq
  · rename_i hcap
    simp only [Except.ok.injEq] at heq
    subst heq
    refine ⟨?_, rfl, rfl⟩
    simp [maxOtherChunks] at hcap ⊢
    omega

theorem scanOtherStep_inv (input : List Nat) (pos : Nat) (st : ScanState)
    (p : Nat × ScanState) (hinv : scanInv input st)
    (heq : scanOtherStep input pos st = .ok p) : scanInv input p.2 := by
  obtain ⟨hlen, hdata, hfmt⟩ := scanOtherStep_ok input pos st p heq
  exact ⟨hlen, hdata ▸ hinv.2.1, by simp [fmtBytesOf, hfmt]; exact hinv.2.2⟩


theorem scanLoop_inv (input : List Nat) (fuel : Nat) :
    ∀ pos st st', scanInv input st →
      scanLoop input fuel pos st = .ok st' → scanInv input st' := by
  induction fuel with
  | zero =>
    intro pos st st' hinv heq
    rw [scanLoop] at heq
    simp only [Except.ok.injEq] at heq
    exact heq ▸ hinv
  | succ fuel ih =>
    intro pos st st' hinv heq
    rw [scanLoop] at heq
    dsimp only at heq
    split at heq
    · simp only [Except.ok.injEq] at heq
      exact heq ▸ hinv
    · rename_i h4
      split at heq
      · -- fmt branch
        rename_i hfmt
        split at heq
        · simp at heq
        · split at heq
          · refine ih _ _ _ ?_ heq
            exact ⟨hinv.1, hinv.2.1, by simp [fmtBytesOf, length_readBytesZ]⟩
          · refine ih _ _ _ ?_ heq
            exact ⟨hinv.1, hinv.2.1, by simp [fmtBytesOf, length_readBytesZ]⟩
      · split at heq
        · -- data branch
          rename_i hnotfmt hdata
          refine ih _ _ _ ?_ heq
          refine ⟨hinv.1, ?_, hinv.2.2⟩
          have hadv : advance input.length pos 4 = pos + 4 := by
            unfold advance; omega
          right
          dsimp only
          rw [hadv]
          have hso : pos + 4 - 4 = pos := by omega
          rw [hso]
          refine ⟨by omega, ?_, by omega⟩
          rw [← readBytesZ_eq_slice input pos 4 (by omega)]
          exact hdata
        · split at heq
          · -- cue branch
            exact ih _ _ _ hinv heq
          · split at heq
            · -- LIST branch
              split at heq
              · simp only [Except.ok.injEq] at heq
                exact heq ▸ hinv
              · split at heq
                · exact ih _ _ _ hinv heq
                · split at heq
                  · simp at heq
                  · rename_i pos5 st1 hstep
                    refine ih _ _ _ ?_ heq
                    exact scanOtherStep_inv input _ st (pos5, st1) hinv hstep
            · -- other branch
              split at heq
              · simp at heq
              · rename_i pos5 st1 hstep
                refine ih _ _ _ ?_ heq
                exact scanOtherStep_inv input _ st (pos5, st1) hinv hstep


theorem scanOtherStep_error (input : List Nat) (pos : Nat) (st : ScanState)
    (e : ScanErr) (heq : scanOtherStep input pos st = .error e) :
    e = .tooManyOtherChunks := by
  unfold scanOtherStep at heq
  split at heq
  · simp only [Except.error.injEq] at heq
    exact heq.symm
  · simp at heq

theorem scanLoop_ne_readError (input : List Nat) (fuel : Nat) :
    ∀ pos st, scanLoop input fuel pos st ≠ .error .readError := by
  induction fuel with
  | zero =>
    intro pos st
    rw [scanLoop]
    simp
  | succ fuel ih =>
    intro pos st
    rw [scanLoop]
    dsimp only
    split
    · simp
    · split
      · split
        · simp
        · split
          · apply ih
          · apply ih
      · split
        · apply ih
        · split
          · apply ih
          · split
            · split
              · simp
              · split
                · apply ih
                · split
                  · rename_i e hstep
                    have := scanOtherStep_error input _ st e hstep
                    subst this
                    simp
                  · apply ih
            · split
              · rename_i e hstep
                have := scanOtherStep_error input _ st e hstep
                subst this
                simp
              · apply ih

theorem scanWaveFile_ok_inv (input : List Nat) (sr : ScanState)
    (h : scanWaveFile input = .ok sr) :
    scanInv input sr ∧ sr.dataChunkLocation.size ≠ 0 := by
  unfold scanWaveFile at h
  dsimp only at h
  split at h
  · simp at h
  · split at h
    · simp at h
    · split at h
      · simp at h
      · split at h
        · simp at h
        · rename_i st hloop
          split at h
          · simp at h
          · rename_i hpresent
            simp only [Except.ok.injEq] at h
            subst h
            refine ⟨scanLoop_inv input _ _ _ _ ?_ hloop, fun hz => hpresent (Or.inr hz)⟩
            exact ⟨by simp [initScanState, maxOtherChunks], Or.inl rfl,
              by simp [fmtBytesOf, initScanState]⟩

theorem scanWaveFile_ne_readError (input : List Nat) :
    scanWaveFile input ≠ .error .readError := by
  intro hco
  unfold scanWaveFile at hco
  dsimp only at hco
  split at hco
  · simp at hco
  · split at hco
    · simp at hco
    · split at hco
      · simp at hco
      · split at hco
        · rename_i e hloop
          simp only [Except.error.injEq] at hco
          subst hco
          exact scanLoop_ne_readError input _ _ _ hloop
        · split at hco <;> simp at hco

/-! Record-indexing helpers and the first group of claim theorems. -/

theorem slice_at_append (a b c : List Nat) (n : Nat) (hb : b.length = n) :
    ((a ++ (b ++ c)).drop a.length).take n = b := by
  rw [List.drop_left, List.take_left' hb]

theorem cuePointBytes_id (cid loc : Nat) :
    (cuePointBytes cid loc).take 4 = uint32ToLittleEndianBytes cid := by
  unfold cuePointBytes
  rw [List.append_assoc, List.append_assoc, List.append_assoc, List.append_assoc]
  exact List.take_left' (by simp [uint32ToLittleEndianBytes])

theorem lablRecordBytes_id (cid : Nat) (en : LabelEntry) :
    (((lablRecordBytes cid en).drop 8).take 4) = uint32ToLittleEndianBytes cid := by
  have hsplit : lablRecordBytes cid en
      = (lablID ++ uint32ToLittleEndianBytes (en.labelLength + 4))
        ++ (uint32ToLittleEndianBytes cid
            ++ (labelTextBytes en ++ (if en.labelLength % 2 ≠ 0 then [0] else []))) := by
    unfold lablRecordBytes
    simp [List.append_assoc]
  rw [hsplit, List.drop_left' (by simp [lablID, uint32ToLittleEndianBytes]),
    List.take_left' (by simp [uint32ToLittleEndianBytes])]

theorem cuePointsAux_getD (es : List LabelEntry) (k i : Nat) (h : i < es.length) :
    (cuePointsAux k es).getD i []
      = cuePointBytes (k + i + 1) (es.getD i default).location := by
  induction es generalizing k i with
  | nil => simp at h
  | cons e rest ih =>
    cases i with
    | zero => simp [cuePointsAux]
    | succ i =>
      simp only [cuePointsAux, List.getD_cons_succ]
      rw [ih (k + 1) i (by simpa using h)]
      congr 2
      omega

theorem lablRecordsAux_getD (es : List LabelEntry) (k i : Nat) (h : i < es.length) :
    (lablRecordsAux k es).getD i [] = lablRecordBytes (k + i + 1) (es.getD i default) := by
  induction es generalizing k i with
  | nil => simp at h
  | cons e rest ih =>
    cases i with
    | zero => simp [lablRecordsAux]
    | succ i =>
      simp only [lablRecordsAux, List.getD_cons_succ]
      rw [ih (k + 1) i (by simpa using h)]
      congr 2
      omega


set_option maxRecDepth 4000

/-- C6: for every parsed label list, the i-th cue record's cue-id and the
i-th labeled-text record's cue-id both equal i + 1; in particular the id
sequence is strictly positive and increases by exactly one. -/
theorem cue_and_labl_ids_sequential (li : LabelInfo) (i : Nat)
    (hi : i < li.entries.length) (hn : li.entries.length < 4294967296) :
    littleEndianBytesToUInt32 (((cuePoints li).getD i []).take 4) = i + 1
    ∧ littleEndianBytesToUInt32 ((((lablRecords li).getD i []).drop 8).take 4) = i + 1
    ∧ 0 < i + 1 := by
  unfold cuePoints lablRecords
  rw [cuePointsAux_getD _ 0 i hi, lablRecordsAux_getD _ 0 i hi,
    cuePointBytes_id, lablRecordBytes_id, littleEndianBytesToUInt32_uint32]
  refine ⟨by omega, by omega, by omega⟩

theorem cue_and_labl_ids_sequential_witness :
    (0 < liA.entries.length ∧ liA.entries.length < 4294967296)
    ∧ (littleEndianBytesToUInt32 (((cuePoints liA).getD 0 []).take 4) = 0 + 1
       ∧ littleEndianBytesToUInt32 ((((lablRecords liA).getD 0 []).drop 8).take 4) = 0 + 1
       ∧ 0 < 0 + 1) :=
  ⟨⟨by decide, by decide⟩, cue_and_labl_ids_sequential liA 0 (by decide) (by decide)⟩

/-- C9: the synthesized list body has even length for every label set, the
writer's trailing pad for the LIST chunk is the empty byte string, and the
header length computed without an odd-pad term for the list body still
matches the emitted output length minus 8. -/
theorem list_body_always_even (input : List Nat) (sr : ScanState) (li : LabelInfo)
    (hfmt : (fmtBytesOf sr).length = 24) :
    listChunkSize li % 2 = 0
    ∧ (if listChunkSize li % 2 ≠ 0 then [0] else ([] : List Nat)) = []
    ∧ (writeOutputFile input sr li).length = fileDataSize sr li + 8 :=
  ⟨listChunkSize_even li, by simp [listChunkSize_even li],
   length_writeOutputFile input sr li hfmt⟩

theorem list_body_always_even_witness :
    (fmtBytesOf srA).length = 24
    ∧ (listChunkSize liA % 2 = 0
       ∧ (if listChunkSize liA % 2 ≠ 0 then [0] else ([] : List Nat)) = []
       ∧ (writeOutputFile waveFileA srA liA).length = fileDataSize srA liA + 8) :=
  ⟨by decide, list_body_always_even waveFileA srA liA (by decide)⟩

/-- C4 counterexample: a successful copier call returns code zero yet leaves
the input position at the end of the copied range instead of restoring the
position (7) noted on entry. -/
theorem copier_position_not_restored_on_success :
    (writeChunkLocationFromInputFileToOutputFile noErrEnv ⟨2, 4⟩
        [0, 1, 2, 3, 4, 5, 6, 7, 8, 9] 7 []).1 = 0
    ∧ (writeChunkLocationFromInputFileToOutputFile noErrEnv ⟨2, 4⟩
        [0, 1, 2, 3, 4, 5, 6, 7, 8, 9] 7 []).2.1 ≠ 7 := by
  decide

/-- C4 amended: the copier saves the input position on entry and restores it
on every read or write failure path; on the success path the position is not
restored but left at the end of the copied range. -/
theorem copier_restores_position_on_failure (env : CopyEnv) (chunk : ChunkLocation)
    (input : List Nat) (pos : Nat) (out : List Nat)
    (hb : chunk.startOffset + chunk.size ≤ input.length) :
    ((writeChunkLocationFromInputFileToOutputFile env chunk input pos out).1 = -1 →
      (writeChunkLocationFromInputFileToOutputFile env chunk input pos out).2.1 = pos)
    ∧ ((writeChunkLocationFromInputFileToOutputFile env chunk input pos out).1 = 0 →
      (writeChunkLocationFromInputFileToOutputFile env chunk input pos out).2.1
        = chunk.startOffset + chunk.size) := by
  unfold writeChunkLocationFromInputFileToOutputFile
  constructor
  · intro h
    exact copyLoop_error_restores env input pos chunk.size chunk.size chunk.startOffset
      0 out _ rfl h
  · intro h
    exact copyLoop_ok_pos env input pos chunk.size chunk.size chunk.startOffset
      0 out _ le_rfl hb rfl h

theorem copier_restores_position_on_failure_witness :
    ((⟨2, 4⟩ : ChunkLocation).startOffset + (⟨2, 4⟩ : ChunkLocation).size
        ≤ ([0, 1, 2, 3, 4, 5, 6, 7, 8, 9] : List Nat).length)
    ∧ (((writeChunkLocationFromInputFileToOutputFile noErrEnv ⟨2, 4⟩
          [0, 1, 2, 3, 4, 5, 6, 7, 8, 9] 7 []).1 = -1 →
        (writeChunkLocationFromInputFileToOutputFile noErrEnv ⟨2, 4⟩
          [0, 1, 2, 3, 4, 5, 6, 7, 8, 9] 7 []).2.1 = 7)
       ∧ ((writeChunkLocationFromInputFileToOutputFile noErrEnv ⟨2, 4⟩
          [0, 1, 2, 3, 4, 5, 6, 7, 8, 9] 7 []).1 = 0 →
        (writeChunkLocationFromInputFileToOutputFile noErrEnv ⟨2, 4⟩
          [0, 1, 2, 3, 4, 5, 6, 7, 8, 9] 7 []).2.1
          = (⟨2, 4⟩ : ChunkLocation).startOffset + (⟨2, 4⟩ : ChunkLocation).size)) :=
  ⟨by decide, copier_restores_position_on_failure noErrEnv ⟨2, 4⟩
    [0, 1, 2, 3, 4, 5, 6, 7, 8, 9] 7 [] (by decide)⟩

/-- C3 evidence: the same two label lines produce two entries with CRLF
endings but only one entry with LF or CR endings, because the parser's
trailing character read consumes the first byte of the following line
whenever the line terminator was a single byte. -/
theorem label_line_ending_divergence :
    (readLabelFile lblCRLF fmtBytesA).1.entries.length = 2
    ∧ (readLabelFile lblLF fmtBytesA).1.entries.length = 1
    ∧ (readLabelFile lblCR fmtBytesA).1.entries.length = 1 := by
  decide

/-! Symbolic evaluation of the label loop on one line, and the capacity and
end-of-stream claim theorems. -/

theorem labelFileLoop_eof (fmtBytes : List Nat) (fuel : Nat) (s : LStream)
    (li : LabelInfo) (diags : Nat) (h : s.eofFlag = true) :
    labelFileLoop fmtBytes fuel s li diags = (li, diags) := by
  rw [labelFileLoop.eq_def]
  simp [h]

theorem fscanfLabelLine_lblLine (rest : List Nat) :
    fscanfLabelLine ⟨lblLine ++ rest, false⟩
      = (some (⟨1, 0⟩, [97]), ⟨10 :: rest, false⟩) := by
  simp [lblLine, fscanfLabelLine, parseFloat, parseExponent, isSpaceByte, isDigitByte,
    digitsToNat]


theorem labelFileLoop_lblLine_last (fuel : Nat) (li : LabelInfo) (diags : Nat) :
    labelFileLoop fmtBytesA (fuel + 1) ⟨lblLine, false⟩ li diags
      = (⟨li.entries ++ [lblLineEntry]⟩, diags) := by
  have hf := fscanfLabelLine_lblLine []
  rw [List.append_nil] at hf
  have hcap : startTimeWithinCap ⟨1, 0⟩ = true := rfl
  have ht : timeToIndex ⟨1, 0⟩ fmtBytesA = 44100 := rfl
  rw [labelFileLoop.eq_def]
  simp only [Bool.false_eq_true, if_false, hf, hcap, ht, if_true, lgetc, lblLineEntry]
  simp [lgetc, labelFileLoop_eof]

theorem labelFileLoop_lblLine_cons (r : List Nat) (fuel : Nat) (li : LabelInfo) (diags : Nat) :
    labelFileLoop fmtBytesA (fuel + 1) ⟨lblLine ++ (49 :: r), false⟩ li diags
      = labelFileLoop fmtBytesA fuel ⟨49 :: r, false⟩ ⟨li.entries ++ [lblLineEntry]⟩ diags := by
  have hf := fscanfLabelLine_lblLine (49 :: r)
  have hcap : startTimeWithinCap ⟨1, 0⟩ = true := rfl
  have ht : timeToIndex ⟨1, 0⟩ fmtBytesA = 44100 := rfl
  rw [labelFileLoop.eq_def]
  simp only [Bool.false_eq_true, if_false, hf, hcap, ht, if_true, lblLineEntry]
  simp [lgetc, lungetc]


theorem labelFileLoop_replicate (n : Nat) :
    ∀ fuel li diags, n + 1 ≤ fuel →
      labelFileLoop fmtBytesA fuel ⟨(List.replicate (n + 1) lblLine).flatten, false⟩ li diags
        = (⟨li.entries ++ List.replicate (n + 1) lblLineEntry⟩, diags) := by
  induction n with
  | zero =>
    intro fuel li diags hf
    obtain ⟨f, rfl⟩ : ∃ f, fuel = f + 1 := ⟨fuel - 1, by omega⟩
    rw [List.replicate_one, List.flatten, List.flatten, List.append_nil]
    rw [labelFileLoop_lblLine_last]
    rfl
  | succ n ih =>
    intro fuel li diags hf
    obtain ⟨f, rfl⟩ : ∃ f, fuel = f + 1 := ⟨fuel - 1, by omega⟩
    have hsh : (List.replicate (n + 1) lblLine).flatten
        = 49 :: ([9, 49, 9, 97, 13, 10] ++ (List.replicate n lblLine).flatten) := by
      rw [List.replicate_succ, List.flatten_cons]
      simp [lblLine]
    rw [List.replicate_succ, List.flatten_cons, hsh, labelFileLoop_lblLine_cons, ← hsh]
    rw [ih f ⟨li.entries ++ [lblLineEntry]⟩ diags (by omega)]
    simp [List.replicate_succ]


/-- C8 counterexample: a label file with 501 valid lines parses to 501
stored entries with no diagnostic and no failure: the 500-entry label
capacity is not enforced (in the C, storing the 501st entry writes past the
end of the 500-slot arrays). -/
theorem label_capacity_unchecked :
    (readLabelFile labelFile501 fmtBytesA).1.entries.length = 501
    ∧ (readLabelFile labelFile501 fmtBytesA).2 = 0 := by
  have h501 : labelFile501 = (List.replicate (500 + 1) lblLine).flatten := rfl
  have hlen : labelFile501.length = 3507 := by
    rw [h501, List.length_flatten, List.map_replicate, List.sum_replicate]
    norm_num [lblLine]
  unfold readLabelFile
  rw [hlen, h501, labelFileLoop_replicate 500 3508 ⟨[]⟩ 0 (by omega)]
  refine ⟨?_, rfl⟩
  show (List.nil ++ List.replicate (500 + 1) lblLineEntry).length = 501
  rw [List.nil_append, List.length_replicate]

/-- C8 amended: of the three retained capacities only the 256 other-chunk
cap is enforced: every successful scan records at most 256 other chunks, and
the catch-all branch aborts with the capacity diagnostic whenever the count
has reached the cap.  The 500-entry and 500-byte label capacities have no
check (theorem label_capacity_unchecked). -/
theorem other_chunk_capacity_enforced :
    (∀ (input : List Nat) (sr : ScanState), scanWaveFile input = .ok sr →
      sr.otherChunkLocations.length ≤ maxOtherChunks)
    ∧ (∀ (input : List Nat) (pos : Nat) (st : ScanState),
        maxOtherChunks ≤ st.otherChunkLocations.length →
        scanOtherStep input pos st = .error .tooManyOtherChunks) := by
  constructor
  · intro input sr h
    exact (scanWaveFile_ok_inv input sr h).1.1
  · intro input pos st h
    unfold scanOtherStep
    simp [h]

theorem other_chunk_capacity_enforced_witness :
    (scanWaveFile waveFileA = .ok srA
     ∧ srA.otherChunkLocations.length ≤ maxOtherChunks)
    ∧ (maxOtherChunks ≤
        (⟨none, ⟨0, 0⟩, ⟨0, 0⟩, List.replicate 256 ⟨0, 0⟩⟩ : ScanState).otherChunkLocations.length
       ∧ scanOtherStep [] 0 ⟨none, ⟨0, 0⟩, ⟨0, 0⟩, List.replicate 256 (⟨0, 0⟩ : ChunkLocation)⟩
           = .error .tooManyOtherChunks) :=
  ⟨⟨rfl, other_chunk_capacity_enforced.1 waveFileA srA rfl⟩,
   ⟨by decide, other_chunk_capacity_enforced.2 [] 0 _ (by decide)⟩⟩

/-- C7 counterexample: waveFileTrunc ends two bytes into the length field of
its trailing JUNK chunk (the chunk starts at offset 46, so even its 8-byte
header would need 54 bytes, but the file has 52), yet the scan terminates
normally, records the truncated chunk, and the whole run returns
successfully, the exit-zero outcome. -/
theorem truncated_chunk_run_succeeds :
    waveFileTrunc.length < 46 + 8
    ∧ srTrunc.otherChunkLocations = [⟨46, 13⟩]
    ∧ scanWaveFile waveFileTrunc = .ok srTrunc
    ∧ addLabelsToWaveFile waveFileTrunc labelFileA
        = .ok (writeOutputFile waveFileTrunc srTrunc liA) :=
  ⟨by decide, rfl, rfl, rfl⟩

/-- C7 amended: end of stream while reading the next 4-byte chunk identifier
terminates the chunk loop normally, and no end-of-stream condition during
scanning is fatal: the scanning phase never produces the read-error abort
(its ferror checks respond to stream errors, which end of stream does not
raise), so a truncated chunk leads to normal loop termination, and the run
fails only if the format or data chunk is then missing. -/
theorem scan_eof_is_never_fatal :
    (∀ input : List Nat, scanWaveFile input ≠ .error .readError)
    ∧ (∀ (input : List Nat) (fuel pos : Nat) (st : ScanState),
        input.length - pos < 4 → scanLoop input (fuel + 1) pos st = .ok st) := by
  constructor
  · exact scanWaveFile_ne_readError
  · intro input fuel pos st h
    rw [scanLoop]
    simp [h]

theorem scan_eof_is_never_fatal_witness :
    (([] : List Nat).length - 0 < 4)
    ∧ scanLoop [] (0 + 1) 0 initScanState = .ok initScanState :=
  ⟨by decide, scan_eof_is_never_fatal.2 [] 0 0 initScanState (by decide)⟩

/-! Pipeline decomposition and the preservation and length-field claims. -/

theorem addLabels_ok_decompose (input labelData : List Nat) (sr : ScanState) (out : List Nat)
    (hscan : scanWaveFile input = .ok sr)
    (hrun : addLabelsToWaveFile input labelData = .ok out) :
    out = writeOutputFile input sr (readLabelFile labelData (fmtBytesOf sr)).1 := by
  unfold addLabelsToWaveFile at hrun
  rw [hscan] at hrun
  dsimp only at hrun
  split at hrun
  · simp at hrun
  · simp only [Except.ok.injEq] at hrun
    exact hrun.symm

theorem writeOutputFile_header_field (input : List Nat) (sr : ScanState) (li : LabelInfo) :
    ((writeOutputFile input sr li).drop 4).take 4
      = uint32ToLittleEndianBytes (fileDataSize sr li) := by
  unfold writeOutputFile
  dsimp only
  simp only [List.append_assoc]
  rw [List.drop_left' (by simp [riffID]),
    List.take_left' (by simp [uint32ToLittleEndianBytes])]

theorem writeOutputFile_parts (input : List Nat) (sr : ScanState) (li : LabelInfo) :
    writeOutputFile input sr li
      = (riffID ++ uint32ToLittleEndianBytes (fileDataSize sr li) ++ waveID ++ fmtBytesOf sr
          ++ (if 0 < sr.formatChunkExtraBytes.size then
                copiedBytes input sr.formatChunkExtraBytes
                  ++ (if sr.formatChunkExtraBytes.size % 2 ≠ 0 then [0] else [])
              else []))
        ++ (copiedBytes input sr.dataChunkLocation
            ++ ((if sr.dataChunkLocation.size % 2 ≠ 0 then [0] else [])
                ++ (cueID ++ uint32ToLittleEndianBytes (4 + 24 * li.entries.length)
                    ++ uint32ToLittleEndianBytes li.entries.length
                    ++ (cuePoints li).flatten
                    ++ listID ++ uint32ToLittleEndianBytes (4 + listChunkSize li) ++ adtlID
                    ++ (lablRecords li).flatten
                    ++ (if listChunkSize li % 2 ≠ 0 then [0] else [])
                    ++ (sr.otherChunkLocations.map
                        (fun c => copiedBytes input c
                          ++ (if c.size % 2 ≠ 0 then [0] else []))).flatten))) := by
  unfold writeOutputFile
  simp [List.append_assoc]

/-- C2: on a successful run the 32-bit length in the output header equals
the output length minus 8, which equals the fileDataSize accumulation, which
in turn equals the claimed sum (the odd-pad term for the list body, absent
from the accumulation, is zero because the list body is always even). -/
theorem riff_length_field_correct (input labelData : List Nat) (sr : ScanState)
    (out : List Nat)
    (hscan : scanWaveFile input = .ok sr)
    (hrun : addLabelsToWaveFile input labelData = .ok out)
    (h32 : fileDataSize sr (readLabelFile labelData (fmtBytesOf sr)).1 < 4294967296) :
    littleEndianBytesToUInt32 ((out.drop 4).take 4) = out.length - 8
    ∧ out.length - 8 = fileDataSize sr (readLabelFile labelData (fmtBytesOf sr)).1
    ∧ fileDataSize sr (readLabelFile labelData (fmtBytesOf sr)).1
        = 4 + 8 + 16
          + sr.formatChunkExtraBytes.size
          + (if sr.formatChunkExtraBytes.size % 2 ≠ 0 then 1 else 0)
          + sr.dataChunkLocation.size
          + (if sr.dataChunkLocation.size % 2 ≠ 0 then 1 else 0)
          + (sr.otherChunkLocations.map
              (fun c => c.size + (if c.size % 2 ≠ 0 then 1 else 0))).sum
          + 12 + 24 * (readLabelFile labelData (fmtBytesOf sr)).1.entries.length
          + 12 + listChunkSize (readLabelFile labelData (fmtBytesOf sr)).1
          + (if listChunkSize (readLabelFile labelData (fmtBytesOf sr)).1 % 2 ≠ 0
             then 1 else 0) := by
  have hout := addLabels_ok_decompose input labelData sr out hscan hrun
  have hfmt : (fmtBytesOf sr).length = 24 := (scanWaveFile_ok_inv input sr hscan).1.2.2
  have hlen : out.length
      = fileDataSize sr (readLabelFile labelData (fmtBytesOf sr)).1 + 8 := by
    rw [hout]
    exact length_writeOutputFile input sr _ hfmt
  have he := listChunkSize_even (readLabelFile labelData (fmtBytesOf sr)).1
  refine ⟨?_, by omega, ?_⟩
  · rw [hout, writeOutputFile_header_field, littleEndianBytesToUInt32_uint32]
    rw [← hout]
    omega
  · simp only [he, fileDataSize]
    simp

theorem riff_length_field_correct_witness :
    (scanWaveFile waveFileA = .ok srA
     ∧ addLabelsToWaveFile waveFileA labelFileA = .ok (writeOutputFile waveFileA srA liA)
     ∧ fileDataSize srA (readLabelFile labelFileA (fmtBytesOf srA)).1 < 4294967296)
    ∧ (littleEndianBytesToUInt32 (((writeOutputFile waveFileA srA liA).drop 4).take 4)
        = (writeOutputFile waveFileA srA liA).length - 8
       ∧ (writeOutputFile waveFileA srA liA).length - 8
          = fileDataSize srA (readLabelFile labelFileA (fmtBytesOf srA)).1
       ∧ fileDataSize srA (readLabelFile labelFileA (fmtBytesOf srA)).1
          = 4 + 8 + 16
            + srA.formatChunkExtraBytes.size
            + (if srA.formatChunkExtraBytes.size % 2 ≠ 0 then 1 else 0)
            + srA.dataChunkLocation.size
            + (if srA.dataChunkLocation.size % 2 ≠ 0 then 1 else 0)
            + (srA.otherChunkLocations.map
                (fun c => c.size + (if c.size % 2 ≠ 0 then 1 else 0))).sum
            + 12 + 24 * (readLabelFile labelFileA (fmtBytesOf srA)).1.entries.length
            + 12 + listChunkSize (readLabelFile labelFileA (fmtBytesOf srA)).1
            + (if listChunkSize (readLabelFile labelFileA (fmtBytesOf srA)).1 % 2 ≠ 0
               then 1 else 0)) :=
  ⟨⟨rfl, rfl, by decide⟩,
   riff_length_field_correct waveFileA labelFileA srA (writeOutputFile waveFileA srA liA)
     rfl rfl (by decide)⟩


/-- C1: on a successful run the output contains, at some offset, a byte
range equal to the input's recorded data chunk range; that range starts with
the identifier data and its length field holds the range size minus 8, so
identifier, length field and payload are all byte-identical to the input's
data chunk. -/
theorem data_chunk_preserved (input labelData : List Nat) (sr : ScanState) (out : List Nat)
    (hscan : scanWaveFile input = .ok sr)
    (hrun : addLabelsToWaveFile input labelData = .ok out)
    (hb : sr.dataChunkLocation.startOffset + sr.dataChunkLocation.size ≤ input.length) :
    ∃ k,
      ((out.drop k).take sr.dataChunkLocation.size
        = (input.drop sr.dataChunkLocation.startOffset).take sr.dataChunkLocation.size)
      ∧ (input.drop sr.dataChunkLocation.startOffset).take 4 = dataID
      ∧ littleEndianBytesToUInt32
          ((input.drop (sr.dataChunkLocation.startOffset + 4)).take 4)
          = sr.dataChunkLocation.size - 8 := by
  have hout := addLabels_ok_decompose input labelData sr out hscan hrun
  obtain ⟨⟨hcap, hsound, hfmt⟩, hnz⟩ := scanWaveFile_ok_inv input sr hscan
  rcases hsound with hz | ⟨h4, hid, hsize⟩
  · exact absurd hz hnz
  refine ⟨(riffID ++ uint32ToLittleEndianBytes
      (fileDataSize sr (readLabelFile labelData (fmtBytesOf sr)).1) ++ waveID ++ fmtBytesOf sr
      ++ (if 0 < sr.formatChunkExtraBytes.size then
            copiedBytes input sr.formatChunkExtraBytes
              ++ (if sr.formatChunkExtraBytes.size % 2 ≠ 0 then [0] else [])
          else [])).length, ?_, hid, ?_⟩
  · rw [hout, writeOutputFile_parts,
      slice_at_append _ _ _ _ (length_copiedBytes input sr.dataChunkLocation),
      copiedBytes_eq_readBytesZ, readBytesZ_eq_slice _ _ _ hb]
  · rw [readBytesZ_eq_slice input (sr.dataChunkLocation.startOffset + 4) 4 (by omega)]
      at hsize
    omega

theorem data_chunk_preserved_witness :
    (scanWaveFile waveFileA = .ok srA
     ∧ addLabelsToWaveFile waveFileA labelFileA = .ok (writeOutputFile waveFileA srA liA)
     ∧ srA.dataChunkLocation.startOffset + srA.dataChunkLocation.size ≤ waveFileA.length)
    ∧ (∃ k,
        (((writeOutputFile waveFileA srA liA).drop k).take srA.dataChunkLocation.size
          = (waveFileA.drop srA.dataChunkLocation.startOffset).take
              srA.dataChunkLocation.size)
        ∧ (waveFileA.drop srA.dataChunkLocation.startOffset).take 4 = dataID
        ∧ littleEndianBytesToUInt32
            ((waveFileA.drop (srA.dataChunkLocation.startOffset + 4)).take 4)
            = srA.dataChunkLocation.size - 8) :=
  ⟨⟨rfl, rfl, by decide⟩,
   data_chunk_preserved waveFileA labelFileA srA (writeOutputFile waveFileA srA liA)
     rfl rfl (by decide)⟩

/-! Zero bytes inside label text. -/

theorem fscanfLabelLine_oneLine (text : List Nat) (hne : text ≠ [])
    (hnoterm : ∀ c ∈ text, c ≠ 13 ∧ c ≠ 10) :
    fscanfLabelLine ⟨[49, 9, 49, 9] ++ text, false⟩
      = (some (⟨1, 0⟩, text), ⟨[], true⟩) := by
  have htake : List.takeWhile (fun c => !decide (c = 13) && !decide (c = 10)) text = text := by
    rw [List.takeWhile_eq_self_iff]
    intro x hx
    have h := hnoterm x hx
    simp [h.1, h.2]
  have hdrop : List.dropWhile (fun c => !decide (c = 13) && !decide (c = 10)) text = [] := by
    rw [List.dropWhile_eq_nil_iff]
    intro x hx
    have h := hnoterm x hx
    simp [h.1, h.2]
  simp [fscanfLabelLine, parseFloat, parseExponent, isSpaceByte, isDigitByte, digitsToNat,
    htake, hdrop, hne]

theorem labelTextBytes_of_succ (loc : Nat) (l : List Nat) :
    labelTextBytes ⟨loc, l, l.length + 1⟩ = l ++ [0] := by
  apply List.ext_getElem
  · simp [labelTextBytes]
  · intro i h1 h2
    simp only [labelTextBytes, List.getElem_map, List.getElem_range]
    by_cases hi : i < l.length
    · rw [List.getElem_append_left hi, List.getD_eq_getElem l 0 hi]
    · rw [List.getElem_append_right (by omega)]
      rw [List.getD_eq_default l 0 (by omega)]
      simp [labelTextBytes] at h1
      have : i - l.length = 0 := by omega
      simp [this]

/-- C10: when the text of a well-formed label line contains a zero byte, the
stored entry keeps only the bytes before the first zero byte (the C stores
the captured string with strcpy and measures it with strlen), and the
synthesized labl record carries exactly those bytes followed by the single
terminator, not the full captured text. -/
theorem zero_byte_label_truncation (text : List Nat)
    (hz : 0 ∈ text)
    (hnoterm : ∀ c ∈ text, c ≠ 13 ∧ c ≠ 10) :
    ((readLabelFile ([49, 9, 49, 9] ++ text) fmtBytesA).1.entries
      = [⟨44100, text.takeWhile (fun c => c ≠ 0),
          (text.takeWhile (fun c => c ≠ 0)).length + 1⟩])
    ∧ lablRecords (readLabelFile ([49, 9, 49, 9] ++ text) fmtBytesA).1
        = [lablID
            ++ uint32ToLittleEndianBytes ((text.takeWhile (fun c => c ≠ 0)).length + 1 + 4)
            ++ uint32ToLittleEndianBytes 1
            ++ (text.takeWhile (fun c => c ≠ 0) ++ [0])
            ++ (if ((text.takeWhile (fun c => c ≠ 0)).length + 1) % 2 ≠ 0
                then [0] else [])] := by
  have hne : text ≠ [] := by
    intro h
    rw [h] at hz
    simp at hz
  have hcap : startTimeWithinCap ⟨1, 0⟩ = true := rfl
  have ht : timeToIndex ⟨1, 0⟩ fmtBytesA = 44100 := rfl
  have hrl : (readLabelFile ([49, 9, 49, 9] ++ text) fmtBytesA).1
      = ⟨[⟨44100, text.takeWhile (fun c => c ≠ 0),
          (text.takeWhile (fun c => c ≠ 0)).length + 1⟩]⟩ := by
    unfold readLabelFile
    rw [labelFileLoop.eq_def]
    simp only [Bool.false_eq_true, if_false, fscanfLabelLine_oneLine text hne hnoterm,
      hcap, ht, if_true]
    simp [lgetc, labelFileLoop_eof]
  refine ⟨by rw [hrl], ?_⟩
  rw [hrl]
  simp only [lablRecords, lablRecordsAux]
  rw [show (0 + 1) = 1 from rfl]
  unfold lablRecordBytes
  rw [labelTextBytes_of_succ]


theorem zero_byte_label_truncation_witness :
    (0 ∈ ([97, 0, 98] : List Nat)
     ∧ (∀ c ∈ ([97, 0, 98] : List Nat), c ≠ 13 ∧ c ≠ 10))
    ∧ (((readLabelFile ([49, 9, 49, 9] ++ [97, 0, 98]) fmtBytesA).1.entries
        = [⟨44100, ([97, 0, 98] : List Nat).takeWhile (fun c => c ≠ 0),
            (([97, 0, 98] : List Nat).takeWhile (fun c => c ≠ 0)).length + 1⟩])
       ∧ lablRecords (readLabelFile ([49, 9, 49, 9] ++ [97, 0, 98]) fmtBytesA).1
          = [lablID
              ++ uint32ToLittleEndianBytes
                  ((([97, 0, 98] : List Nat).takeWhile (fun c => c ≠ 0)).length + 1 + 4)
              ++ uint32ToLittleEndianBytes 1
              ++ (([97, 0, 98] : List Nat).takeWhile (fun c => c ≠ 0) ++ [0])
              ++ (if ((([97, 0, 98] : List Nat).takeWhile (fun c => c ≠ 0)).length + 1) % 2 ≠ 0
                  then [0] else [])]) :=
  ⟨⟨by decide, by decide⟩,
   zero_byte_label_truncation [97, 0, 98] (by decide) (by decide)⟩

end WavMarker
